import Mathlib

/-!
Shallow embedding of the visual-ida preset/transition subsystem.

Numeric (JS `number`) fields are modelled as rationals; timestamps as
natural-number milliseconds since the Unix epoch. Randomness is passed
explicitly as a draw `r` with `0 ≤ r < 1` (the value of `Math.random()`).
-/

namespace VisualIda

/-- The `moveType` field of `MotionDetectionOptions`
(`'direction' | 'radial' | 'spiral' | 'wave'`). -/
inductive MoveType
  | direction
  | radial
  | spiral
  | wave
deriving DecidableEq

/-- `MotionDetectionOptions` from `src/lib/MotionDetection.svelte.ts`.
`waveDirection` is the `0 | 1` field (0 = horizontal, 1 = vertical). -/
structure MotionDetectionOptions where
  motionDecayRate : ℚ
  movementAngle : ℚ
  movementSpeed : ℚ
  motionThreshold : ℚ
  motionSensitivity : ℚ
  moveType : MoveType
  rotationSpeed : ℚ
  waveAmplitude : ℚ
  waveFrequency : ℚ
  wavePhase : ℚ
  waveDirection : ℕ
deriving DecidableEq

/-- Enumeration of the nine continuous numeric fields interpolated by the
transition engine (all fields except `moveType` and `waveDirection`). -/
inductive ContField
  | motionDecayRate
  | movementAngle
  | movementSpeed
  | motionThreshold
  | motionSensitivity
  | rotationSpeed
  | waveAmplitude
  | waveFrequency
  | wavePhase
deriving DecidableEq

/-- Projection of a continuous field out of a `MotionDetectionOptions`. -/
def contGet (f : ContField) (o : MotionDetectionOptions) : ℚ :=
  match f with
  | .motionDecayRate => o.motionDecayRate
  | .movementAngle => o.movementAngle
  | .movementSpeed => o.movementSpeed
  | .motionThreshold => o.motionThreshold
  | .motionSensitivity => o.motionSensitivity
  | .rotationSpeed => o.rotationSpeed
  | .waveAmplitude => o.waveAmplitude
  | .waveFrequency => o.waveFrequency
  | .wavePhase => o.wavePhase

/-- Mutable state of `PresetTransitionManager`
(`src/lib/presets/PresetTransitionManager.svelte.ts`). The
`animationFrame` handle and the callbacks are not part of the model;
invocations of `updateCallback` are returned as explicit lists of pushed
option records. -/
structure TransitionState where
  isTransitioning : Bool
  transitionStartTime : ℚ
  transitionDuration : ℚ
  startValues : Option MotionDetectionOptions
  targetValues : Option MotionDetectionOptions
deriving DecidableEq

/-- `lerp` of `PresetTransitionManager`: `start + (end - start) * t`. -/
def lerp (start finish t : ℚ) : ℚ :=
  start + (finish - start) * t

/-- `easeInOut` of `PresetTransitionManager`:
`t < 0.5 ? 2 * t * t : -1 + (4 - 2 * t) * t`. -/
def easeInOut (t : ℚ) : ℚ :=
  if t < 1/2 then 2 * t * t else -1 + (4 - 2 * t) * t

/-- The easing curve exactly as the spec states it:
`ease(t) = 2t² for t<0.5, else 1-2(1-t)²` (for refinement comparison with
the implementation's `easeInOut`). -/
def specEase (t : ℚ) : ℚ :=
  if t < 1/2 then 2 * t ^ 2 else 1 - 2 * (1 - t) ^ 2

/-- The `interpolatedValues` record built inside `animate`: discrete fields
are taken from the target (already applied at `startTransition` time), every
numeric field is `lerp`ed at the eased progress. -/
def interpolate (sv tv : MotionDetectionOptions) (progress : ℚ) :
    MotionDetectionOptions :=
  { moveType := tv.moveType
    waveDirection := tv.waveDirection
    motionDecayRate := lerp sv.motionDecayRate tv.motionDecayRate progress
    movementAngle := lerp sv.movementAngle tv.movementAngle progress
    movementSpeed := lerp sv.movementSpeed tv.movementSpeed progress
    motionThreshold := lerp sv.motionThreshold tv.motionThreshold progress
    motionSensitivity := lerp sv.motionSensitivity tv.motionSensitivity progress
    rotationSpeed := lerp sv.rotationSpeed tv.rotationSpeed progress
    waveAmplitude := lerp sv.waveAmplitude tv.waveAmplitude progress
    waveFrequency := lerp sv.waveFrequency tv.waveFrequency progress
    wavePhase := lerp sv.wavePhase tv.wavePhase progress }

/-- One invocation of the `animate` arrow function at wall-clock time `now`
(the value `performance.now()` returns inside it). Returns the state after
the call and the list of option records pushed through `updateCallback`,
in order. When `rawProgress` reaches 1 the transition ends: the flag is
cleared and the exact `targetValues` record is pushed once more. -/
def animate (st : TransitionState) (now : ℚ) :
    TransitionState × List MotionDetectionOptions :=
  match st.startValues, st.targetValues with
  | some sv, some tv =>
    if st.isTransitioning then
      let elapsed := now - st.transitionStartTime
      let rawProgress := min (elapsed / st.transitionDuration) 1
      let progress := easeInOut rawProgress
      let interpolatedValues := interpolate sv tv progress
      if rawProgress < 1 then
        (st, [interpolatedValues])
      else
        ({ st with isTransitioning := false }, [interpolatedValues, tv])
    else
      (st, [])
  | _, _ => (st, [])

/-- The record that is both the stored `startValues` and the
`immediateUpdate` of `startTransition`: a copy of `currentValues` whose
discrete fields (`moveType`, `waveDirection`) are overwritten with the
target's value whenever they differ. -/
def discreteMerge (currentValues targetValues : MotionDetectionOptions) :
    MotionDetectionOptions :=
  { currentValues with
    moveType :=
      if currentValues.moveType ≠ targetValues.moveType then
        targetValues.moveType
      else currentValues.moveType
    waveDirection :=
      if currentValues.waveDirection ≠ targetValues.waveDirection then
        targetValues.waveDirection
      else currentValues.waveDirection }

/-- `startTransition(currentValues, targetValues)` called at time `now`.
Cancels any running transition, snapshots start/target values, pushes the
`immediateUpdate` record synchronously when a discrete field differs, and
arms the transition (`isTransitioning := true`, start time `now`). The
synchronous `this.animate()` call it then makes is modelled by a separate
`animate` step. Returns the new state and the records pushed through
`updateCallback` during the call itself. -/
def startTransition (st : TransitionState) (now : ℚ)
    (currentValues targetValues : MotionDetectionOptions) :
    TransitionState × List MotionDetectionOptions :=
  let hasImmediateChanges :=
    decide (currentValues.moveType ≠ targetValues.moveType) ||
    decide (currentValues.waveDirection ≠ targetValues.waveDirection)
  let merged := discreteMerge currentValues targetValues
  let pushes := if hasImmediateChanges then [merged] else []
  ({ isTransitioning := true
     transitionStartTime := now
     transitionDuration := st.transitionDuration
     startValues := some merged
     targetValues := some targetValues }, pushes)

/-- The new target angle drawn inside `scheduleNextAngleChange` of
`src/lib/AnimateAngleChange.svelte.ts`: `Math.floor(Math.random() * 361)`
for a draw `r` in `[0,1)`. -/
def newTargetAngle (r : ℚ) : ℚ :=
  (⌊r * 361⌋ : ℤ)

/-- The `currentAngle` pushed by one invocation of `animateAngleChange`:
linear interpolation `from + (to - from) * t` with
`t = min(elapsed / duration, 1)`. -/
def angleStep (fromAngle toAngle elapsed duration : ℚ) : ℚ :=
  let t := min (elapsed / duration) 1
  fromAngle + (toAngle - fromAngle) * t

/-- A preset record (`MotionDetectionPreset` from
`src/lib/presets/types.ts`); `createdAt`/`updatedAt` are Date values,
modelled as millisecond timestamps. -/
structure Preset where
  id : String
  name : String
  description : Option String
  options : MotionDetectionOptions
  createdAt : ℕ
  updatedAt : ℕ
deriving DecidableEq

/-- `PresetManagerState` from `src/lib/presets/types.ts`. -/
structure PresetManagerState where
  currentPresetId : Option String
  isPlaying : Bool
  isEditingPreset : Bool
  lastCycleTime : ℚ
  cycleInterval : ℚ
  hasUnsavedChanges : Bool
  lastAppliedOptions : Option MotionDetectionOptions
deriving DecidableEq

/-- The orchestrator (`PresetManager`): its preset list and reactive state.
Timers and the transition engine it drives are modelled separately. -/
structure Manager where
  presets : List Preset
  state : PresetManagerState
deriving DecidableEq

/-- `applyPreset(id)`: look the preset up by id; when found set it current,
record its options for change detection and clear the unsaved flag. The
transition side effect (startTransition / applyImmediately) is not part of
the manager state. Returns the updated manager and the boolean result. -/
def applyPreset (m : Manager) (id : String) : Manager × Bool :=
  match m.presets.find? (fun p => p.id == id) with
  | none => (m, false)
  | some preset =>
    ({ m with state :=
        { m.state with
          currentPresetId := some id
          lastAppliedOptions := some preset.options
          hasUnsavedChanges := false } }, true)

/-- The candidate pool of `cycleToNextPreset`: all presets, minus the one
named by `currentPresetId` when that is set. -/
def availablePool (m : Manager) : List Preset :=
  match m.state.currentPresetId with
  | some cid => m.presets.filter (fun p => p.id ≠ cid)
  | none => m.presets

/-- `Math.floor(Math.random() * availablePresets.length)` for draw `r`. -/
def randomIndexOf (r : ℚ) (len : ℕ) : ℕ :=
  (⌊r * (len : ℚ)⌋).toNat

/-- `cycleToNextPreset()` with random draw `r`, at wall-clock time `now`
(`Date.now()`). Mirrors the three cases of the source: empty list (return),
single preset (apply it), otherwise pick uniformly from the pool that
excludes the current preset. `scheduleNextCycle` only arms a timer and is
not part of the state. -/
def cycleToNextPreset (m : Manager) (r now : ℚ) : Manager :=
  match m.presets with
  | [] => m
  | [onlyPreset] =>
    let m1 := (applyPreset m onlyPreset.id).1
    { m1 with state := { m1.state with lastCycleTime := now } }
  | _ :: _ :: _ =>
    let availablePresets := availablePool m
    let randomIndex := randomIndexOf r availablePresets.length
    match availablePresets[randomIndex]? with
    | some randomPreset =>
      let m1 := (applyPreset m randomPreset.id).1
      { m1 with state := { m1.state with lastCycleTime := now } }
    | none => m

/-- `startCycling()` with the random draw `r` used by the immediate
`cycleToNextPreset()` call. With no presets it warns and returns without
touching the state; otherwise it sets `isPlaying`, resets `lastCycleTime`,
clears the unsaved flag and immediately cycles once. -/
def startCycling (m : Manager) (r now : ℚ) : Manager :=
  if m.presets.length = 0 then m
  else
    let m1 : Manager :=
      { m with state :=
          { m.state with
            isPlaying := true
            lastCycleTime := 0
            hasUnsavedChanges := false } }
    cycleToNextPreset m1 r now

/-- Keys of a `MotionDetectionOptions` object, in declaration order
(the order `Object.keys` yields for the literal in
`MotionDetection.svelte.ts`). -/
inductive OptionKey
  | motionDecayRate
  | movementAngle
  | movementSpeed
  | motionThreshold
  | motionSensitivity
  | moveType
  | rotationSpeed
  | waveAmplitude
  | waveFrequency
  | wavePhase
  | waveDirection
deriving DecidableEq

/-- The key list `Object.keys(currentOptions)` iterates over. -/
def allKeys : List OptionKey :=
  [.motionDecayRate, .movementAngle, .movementSpeed, .motionThreshold,
   .motionSensitivity, .moveType, .rotationSpeed, .waveAmplitude,
   .waveFrequency, .wavePhase, .waveDirection]

/-- The per-key tolerance table of `isSignificantlyDifferent` inside
`checkForUnsavedChanges` (default 0.05). `moveType` never reaches the
numeric branch; its entry is the unused default. -/
def toleranceFor (k : OptionKey) : ℚ :=
  match k with
  | .waveFrequency => 1/100
  | .rotationSpeed => 1/100
  | .movementSpeed => 1
  | .waveAmplitude => 1
  | .motionDecayRate => 1/100
  | .wavePhase => 1/20
  | .motionThreshold => 1
  | .motionSensitivity => 1/10
  | .movementAngle => 1
  | .waveDirection => 0
  | .moveType => 1/20

/-- The continuous field a purely numeric key projects. -/
def contOf : OptionKey → ContField
  | .motionDecayRate => .motionDecayRate
  | .movementAngle => .movementAngle
  | .movementSpeed => .movementSpeed
  | .motionThreshold => .motionThreshold
  | .motionSensitivity => .motionSensitivity
  | .rotationSpeed => .rotationSpeed
  | .waveAmplitude => .waveAmplitude
  | .waveFrequency => .waveFrequency
  | .wavePhase => .wavePhase
  | _ => .movementAngle

/-- `isSignificantlyDifferent(current, saved, key)`: `movementAngle` is
always skipped; the string-valued `moveType` is compared exactly; numeric
fields compare `Math.abs(current - saved) > tolerance` (`waveDirection`
is the numeric `0 | 1` field, tolerance 0). -/
def isSignificantlyDifferent
    (current saved : MotionDetectionOptions) (k : OptionKey) : Bool :=
  match k with
  | .movementAngle => false
  | .moveType => decide (current.moveType ≠ saved.moveType)
  | .waveDirection =>
    decide (|(current.waveDirection : ℚ) - (saved.waveDirection : ℚ)| >
      toleranceFor .waveDirection)
  | k =>
    decide (|contGet (contOf k) current - contGet (contOf k) saved| >
      toleranceFor k)

/-- `checkForUnsavedChanges(currentOptions)`: while cycling the flag is
forced false; with no applied preset recorded it is forced false; otherwise
it is `Object.keys(currentOptions).some(...)` over the tolerance
comparison. -/
def checkForUnsavedChanges
    (st : PresetManagerState) (currentOptions : MotionDetectionOptions) :
    PresetManagerState :=
  if st.isPlaying then { st with hasUnsavedChanges := false }
  else
    match st.lastAppliedOptions, st.currentPresetId with
    | some lastApplied, some _ =>
      let hasChanges :=
        allKeys.any (fun k =>
          isSignificantlyDifferent currentOptions lastApplied k)
      { st with hasUnsavedChanges := hasChanges }
    | _, _ => { st with hasUnsavedChanges := false }

/-- The adaptive scheduling step at the end of `processMotionDetection`
(`src/lib/MotionDetection.svelte.ts`): the published `computeTime` is
defaulted to 16 when falsy (`this._state.computeTime || 16`), the target
frame time is `1000 / 20`, and the delay is
`Math.max(0, targetFrameTime - computeTime)`. -/
def nextFrameDelay (computeTime : ℚ) : ℚ :=
  let ct := if computeTime = 0 then 16 else computeTime
  let targetFrameTime : ℚ := 1000 / 20
  max 0 (targetFrameTime - ct)

/-!
`PresetStorage` (`src/lib/presets/storage.ts`) persists the preset list as
JSON; the replacer turns each `Date` into its `toISOString()` form and
`load` revives the two timestamp strings with `new Date(string)`. The
platform pieces (`Date.prototype.toISOString`, ISO-8601 parsing by the
`Date` constructor) are modelled at the calendar-component level from the
ECMAScript specification: a Date is a count of milliseconds since the Unix
epoch, `toISODate` decomposes it into proleptic-Gregorian UTC components
(the fields of the `YYYY-MM-DDTHH:MM:SS.sssZ` string), and `ofISODate`
recombines components into milliseconds, as ISO-8601 parsing does.
-/

/-- Gregorian leap-year rule. -/
def isLeapYear (y : ℕ) : Bool :=
  (y % 4 == 0 && y % 100 != 0) || y % 400 == 0

/-- Number of days in year `y`. -/
def daysInYear (y : ℕ) : ℕ :=
  if isLeapYear y then 366 else 365

/-- Number of days in month `m` (1-indexed) of year `y`; `daysInMonth y 0`
is 0 so that prefix sums over months are convenient. -/
def daysInMonth (y m : ℕ) : ℕ :=
  match m with
  | 0 => 0
  | 1 => 31
  | 2 => if isLeapYear y then 29 else 28
  | 3 => 31
  | 4 => 30
  | 5 => 31
  | 6 => 30
  | 7 => 31
  | 8 => 31
  | 9 => 30
  | 10 => 31
  | 11 => 30
  | _ => 31

/-- Days from 1970-01-01 up to the start of year `y` (0 for years up to
1970). -/
def epochDays : ℕ → ℕ
  | 0 => 0
  | y + 1 => if 1970 ≤ y then epochDays y + daysInYear y else 0

/-- Days from the start of year `y` up to the start of month `m`
(1-indexed; `monthOffset y 1 = 0`). -/
def monthOffset (y : ℕ) : ℕ → ℕ
  | 0 => 0
  | m + 1 => monthOffset y m + daysInMonth y m

/-- Splits a day count (days since 1970-01-01) into the year it falls in
and the zero-based day of that year, by walking years forward. -/
def yearSplit (y days : ℕ) : ℕ × ℕ :=
  if h : daysInYear y ≤ days then yearSplit (y + 1) (days - daysInYear y)
  else (y, days)
termination_by days
decreasing_by
  have hpos : 0 < daysInYear y := by unfold daysInYear; split <;> omega
  omega

/-- Splits a zero-based day of year into the month it falls in and the
zero-based day of that month, by walking months forward from `m`. -/
def monthSplit (y m days : ℕ) : ℕ × ℕ :=
  if h : m < 12 ∧ daysInMonth y m ≤ days then
    monthSplit y (m + 1) (days - daysInMonth y m)
  else (m, days)
termination_by 12 - m
decreasing_by omega

/-- The calendar components of `new Date(t).toISOString()` (the seven
numeric fields of `YYYY-MM-DDTHH:MM:SS.sssZ`). -/
structure ISODate where
  year : ℕ
  month : ℕ
  day : ℕ
  hour : ℕ
  minute : ℕ
  second : ℕ
  millisecond : ℕ
deriving DecidableEq

/-- `Date.prototype.toISOString` on the timestamp `t` (nonnegative ms since
epoch), at the component level. -/
def toISODate (t : ℕ) : ISODate :=
  let ys := yearSplit 1970 (t / 1000 / 60 / 60 / 24)
  let msp := monthSplit ys.1 1 ys.2
  { year := ys.1
    month := msp.1
    day := msp.2 + 1
    hour := t / 1000 / 60 / 60 % 24
    minute := t / 1000 / 60 % 60
    second := t / 1000 % 60
    millisecond := t % 1000 }

/-- ISO-8601 parsing by `new Date(string)`: recombine the components into a
millisecond timestamp. -/
def ofISODate (d : ISODate) : ℕ :=
  (((epochDays d.year + monthOffset d.year d.month + (d.day - 1)) * 24
    + d.hour) * 60 + d.minute) * 60 * 1000 + d.second * 1000 + d.millisecond

/-- A preset as it sits in the persisted JSON: identical to `Preset`
except that the two timestamps have been replaced by the components of
their ISO strings (the work of the `JSON.stringify` replacer). -/
structure StoredPreset where
  id : String
  name : String
  description : Option String
  options : MotionDetectionOptions
  createdAt : ISODate
  updatedAt : ISODate
deriving DecidableEq

namespace PresetStorage

/-- `PresetStorage.save`: serialize every preset, converting the two `Date`
fields through the ISO replacer; all other fields pass through JSON
unchanged. -/
def save (presets : List Preset) : List StoredPreset :=
  presets.map (fun p =>
    { id := p.id
      name := p.name
      description := p.description
      options := p.options
      createdAt := toISODate p.createdAt
      updatedAt := toISODate p.updatedAt })

/-- `PresetStorage.load` on a persisted collection: spread the parsed
record and revive `createdAt`/`updatedAt` with `new Date(...)`. -/
def load (stored : List StoredPreset) : List Preset :=
  stored.map (fun sp =>
    { id := sp.id
      name := sp.name
      description := sp.description
      options := sp.options
      createdAt := ofISODate sp.createdAt
      updatedAt := ofISODate sp.updatedAt })

end PresetStorage

/-- The default options record of `MotionDetection.svelte.ts` (also the
fallback inside `applyPreset`), used as concrete test data. -/
def sampleA : MotionDetectionOptions :=
  { motionDecayRate := 4/5
    movementAngle := 280
    movementSpeed := 40
    motionThreshold := 30
    motionSensitivity := 3/2
    moveType := .direction
    rotationSpeed := 1/10
    waveAmplitude := 5
    waveFrequency := 1/50
    wavePhase := 0
    waveDirection := 0 }

/-- A second concrete options record, differing from `sampleA` on both
discrete fields and all continuous fields. -/
def sampleB : MotionDetectionOptions :=
  { motionDecayRate := 9/10
    movementAngle := 90
    movementSpeed := 20
    motionThreshold := 50
    motionSensitivity := 2
    moveType := .wave
    rotationSpeed := 1/2
    waveAmplitude := 100
    waveFrequency := 1
    wavePhase := 3
    waveDirection := 1 }

/-- A concrete armed transition state: from `sampleA` to `sampleB`,
started at time 0 with the default 3000 ms duration. -/
def sampleTransition : TransitionState :=
  { isTransitioning := true
    transitionStartTime := 0
    transitionDuration := 3000
    startValues := some sampleA
    targetValues := some sampleB }

/-- A manager with two distinct presets, preset `pa` current, used as
concrete test data. -/
def sampleManager : Manager :=
  { presets :=
      [{ id := "pa", name := "A", description := none,
         options := sampleA, createdAt := 0, updatedAt := 0 },
       { id := "pb", name := "B", description := some "b",
         options := sampleB, createdAt := 1, updatedAt := 2 }]
    state :=
      { currentPresetId := some "pa"
        isPlaying := false
        isEditingPreset := false
        lastCycleTime := 0
        cycleInterval := 3000
        hasUnsavedChanges := false
        lastAppliedOptions := some sampleA } }

/-- A manager with an empty preset collection, in the Idle state. -/
def emptyManager : Manager :=
  { presets := []
    state :=
      { currentPresetId := none
        isPlaying := false
        isEditingPreset := false
        lastCycleTime := 0
        cycleInterval := 3000
        hasUnsavedChanges := false
        lastAppliedOptions := none } }

/-!  Theorems.  -/

theorem easeInOut_mem (t : ℚ) (h0 : 0 ≤ t) (h1 : t ≤ 1) :
    0 ≤ easeInOut t ∧ easeInOut t ≤ 1 := by
  unfold easeInOut
  split <;> constructor <;> nlinarith

theorem lerp_one (s e : ℚ) : lerp s e 1 = e := by
  unfold lerp; ring

theorem lerp_mem (s e p : ℚ) (h0 : 0 ≤ p) (h1 : p ≤ 1) :
    min s e ≤ lerp s e p ∧ lerp s e p ≤ max s e := by
  rcases le_total s e with h | h
  · rw [min_eq_left h, max_eq_right h]
    unfold lerp
    constructor <;> nlinarith
  · rw [min_eq_right h, max_eq_left h]
    unfold lerp
    constructor <;> nlinarith

theorem contGet_interpolate (f : ContField) (sv tv : MotionDetectionOptions)
    (p : ℚ) :
    contGet f (interpolate sv tv p) = lerp (contGet f sv) (contGet f tv) p := by
  cases f <;> rfl

theorem rawProgress_mem (st : TransitionState) (now : ℚ)
    (hd : 0 < st.transitionDuration) (hnow : st.transitionStartTime ≤ now) :
    0 ≤ min ((now - st.transitionStartTime) / st.transitionDuration) 1 ∧
    min ((now - st.transitionStartTime) / st.transitionDuration) 1 ≤ 1 :=
  ⟨le_min (div_nonneg (by linarith) (le_of_lt hd)) zero_le_one,
   min_le_right _ _⟩

theorem animate_eq (st : TransitionState) (now : ℚ)
    (sv tv : MotionDetectionOptions)
    (hT : st.isTransitioning = true)
    (hs : st.startValues = some sv) (ht : st.targetValues = some tv) :
    animate st now =
      if min ((now - st.transitionStartTime) / st.transitionDuration) 1 < 1 then
        (st, [interpolate sv tv
          (easeInOut (min ((now - st.transitionStartTime) / st.transitionDuration) 1))])
      else
        ({ st with isTransitioning := false },
         [interpolate sv tv
           (easeInOut (min ((now - st.transitionStartTime) / st.transitionDuration) 1)),
          tv]) := by
  unfold animate
  rw [hs, ht]
  simp [hT]

theorem animate_idle (st : TransitionState) (now : ℚ)
    (hT : st.isTransitioning = false) :
    animate st now = (st, []) := by
  unfold animate
  cases st.startValues <;> cases st.targetValues <;> simp [hT]

/-- C1: once elapsed time reaches the duration (raw progress 1), `animate`
clears the transitioning flag and the last record pushed through the update
callback is exactly the captured target snapshot. -/
theorem transition_completion_exact (st : TransitionState) (now : ℚ)
    (sv tv : MotionDetectionOptions)
    (hT : st.isTransitioning = true)
    (hs : st.startValues = some sv) (ht : st.targetValues = some tv)
    (hd : 0 < st.transitionDuration)
    (hel : st.transitionDuration ≤ now - st.transitionStartTime) :
    (animate st now).1.isTransitioning = false ∧
    (animate st now).2.getLast? = some tv := by
  have hone : (1 : ℚ) ≤ (now - st.transitionStartTime) / st.transitionDuration := by
    rw [le_div_iff hd]; linarith
  have hraw : min ((now - st.transitionStartTime) / st.transitionDuration) 1 = 1 :=
    min_eq_right hone
  rw [animate_eq st now sv tv hT hs ht, hraw]
  simp

/-- C1 witness: the sample transition, sampled exactly at its 3000 ms
duration. -/
theorem transition_completion_exact_witness :
    (animate sampleTransition 3000).1.isTransitioning = false ∧
    (animate sampleTransition 3000).2.getLast? = some sampleB :=
  transition_completion_exact sampleTransition 3000 sampleA sampleB rfl rfl rfl
    (by show (0:ℚ) < 3000; norm_num)
    (by show (3000:ℚ) ≤ 3000 - 0; norm_num)

theorem discreteMerge_moveType (cv tv : MotionDetectionOptions) :
    (discreteMerge cv tv).moveType = tv.moveType := by
  by_cases h : cv.moveType = tv.moveType <;> simp [discreteMerge, h]

theorem discreteMerge_waveDirection (cv tv : MotionDetectionOptions) :
    (discreteMerge cv tv).waveDirection = tv.waveDirection := by
  by_cases h : cv.waveDirection = tv.waveDirection <;> simp [discreteMerge, h]

/-- C2: when the two snapshots differ on a discrete field, `startTransition`
pushes exactly one record synchronously, already carrying the target's
discrete fields; and every record a subsequent `animate` invocation pushes
carries the target's `moveType` and `waveDirection` unchanged. -/
theorem startTransition_discrete_atomic (st : TransitionState)
    (now now2 : ℚ) (cv tv : MotionDetectionOptions)
    (hdiff : cv.moveType ≠ tv.moveType ∨ cv.waveDirection ≠ tv.waveDirection) :
    (∃ u, (startTransition st now cv tv).2 = [u] ∧
      u.moveType = tv.moveType ∧ u.waveDirection = tv.waveDirection) ∧
    ∀ o ∈ (animate (startTransition st now cv tv).1 now2).2,
      o.moveType = tv.moveType ∧ o.waveDirection = tv.waveDirection := by
  constructor
  · refine ⟨discreteMerge cv tv, ?_, discreteMerge_moveType cv tv,
      discreteMerge_waveDirection cv tv⟩
    rcases hdiff with h | h <;> simp [startTransition, h]
  · intro o ho
    rw [animate_eq (startTransition st now cv tv).1 now2
      (discreteMerge cv tv) tv rfl rfl rfl] at ho
    split at ho <;>
      simp only [List.mem_cons, List.not_mem_nil, or_false] at ho
    · subst ho
      exact ⟨rfl, rfl⟩
    · rcases ho with ho | ho <;> subst ho <;> exact ⟨rfl, rfl⟩

/-- C2 witness: `sampleA` and `sampleB` differ on `moveType` (and on
`waveDirection`). -/
theorem startTransition_discrete_atomic_witness :
    (∃ u, (startTransition sampleTransition 0 sampleA sampleB).2 = [u] ∧
      u.moveType = sampleB.moveType ∧ u.waveDirection = sampleB.waveDirection) ∧
    ∀ o ∈ (animate (startTransition sampleTransition 0 sampleA sampleB).1 1000).2,
      o.moveType = sampleB.moveType ∧ o.waveDirection = sampleB.waveDirection :=
  startTransition_discrete_atomic sampleTransition 0 1000 sampleA sampleB
    (Or.inl (by decide))

/-- C3: the eased progress always lies in [0,1], hence every continuous
field value `animate` pushes lies in the closed interval between that
field's start-snapshot and target-snapshot values; consequently, whenever
both snapshots satisfy a declared range `[lo, hi]`, every pushed value
satisfies it too. -/
theorem animate_values_in_range (st : TransitionState) (now : ℚ)
    (sv tv : MotionDetectionOptions) (f : ContField)
    (hs : st.startValues = some sv) (ht : st.targetValues = some tv)
    (hd : 0 < st.transitionDuration)
    (hnow : st.transitionStartTime ≤ now) :
    (∀ t : ℚ, 0 ≤ t → t ≤ 1 → 0 ≤ easeInOut t ∧ easeInOut t ≤ 1) ∧
    ∀ o ∈ (animate st now).2,
      (min (contGet f sv) (contGet f tv) ≤ contGet f o ∧
        contGet f o ≤ max (contGet f sv) (contGet f tv)) ∧
      ∀ lo hi : ℚ, lo ≤ contGet f sv → contGet f sv ≤ hi →
        lo ≤ contGet f tv → contGet f tv ≤ hi →
        lo ≤ contGet f o ∧ contGet f o ≤ hi := by
  refine ⟨fun t h0 h1 => easeInOut_mem t h0 h1, ?_⟩
  have hmain : ∀ o ∈ (animate st now).2,
      min (contGet f sv) (contGet f tv) ≤ contGet f o ∧
      contGet f o ≤ max (contGet f sv) (contGet f tv) := by
    intro o ho
    cases hT : st.isTransitioning with
    | false => rw [animate_idle st now hT] at ho; simp at ho
    | true =>
      rw [animate_eq st now sv tv hT hs ht] at ho
      have hraw := rawProgress_mem st now hd hnow
      have hease := easeInOut_mem _ hraw.1 hraw.2
      split at ho <;>
        simp only [List.mem_cons, List.not_mem_nil, or_false] at ho
      · subst ho
        rw [contGet_interpolate]
        exact lerp_mem _ _ _ hease.1 hease.2
      · rcases ho with ho | ho
        · subst ho
          rw [contGet_interpolate]
          exact lerp_mem _ _ _ hease.1 hease.2
        · subst ho
          exact ⟨min_le_right _ _, le_max_right _ _⟩
  intro o ho
  refine ⟨hmain o ho, fun lo hi h1 h2 h3 h4 => ?_⟩
  have h := hmain o ho
  exact ⟨le_trans (le_min h1 h3) h.1, le_trans h.2 (max_le h2 h4)⟩

/-- C3 witness: the decay-rate field of the sample transition sampled
mid-flight. -/
theorem animate_values_in_range_witness :
    (∀ t : ℚ, 0 ≤ t → t ≤ 1 → 0 ≤ easeInOut t ∧ easeInOut t ≤ 1) ∧
    ∀ o ∈ (animate sampleTransition 1000).2,
      (min (contGet .motionDecayRate sampleA) (contGet .motionDecayRate sampleB) ≤
        contGet .motionDecayRate o ∧
        contGet .motionDecayRate o ≤
          max (contGet .motionDecayRate sampleA) (contGet .motionDecayRate sampleB)) ∧
      ∀ lo hi : ℚ, lo ≤ contGet .motionDecayRate sampleA →
        contGet .motionDecayRate sampleA ≤ hi →
        lo ≤ contGet .motionDecayRate sampleB →
        contGet .motionDecayRate sampleB ≤ hi →
        lo ≤ contGet .motionDecayRate o ∧ contGet .motionDecayRate o ≤ hi :=
  animate_values_in_range sampleTransition 1000 sampleA sampleB .motionDecayRate
    rfl rfl (by show (0:ℚ) < 3000; norm_num) (by show (0:ℚ) ≤ 1000; norm_num)

/-- C5: the implemented easing function coincides with the spec's curve
`2t² for t<0.5, else 1-2(1-t)²` (here on all of ℚ), and every record pushed
by `animate` carries, in each continuous field, exactly
`start + (target - start) * ease(min(elapsed/duration, 1))`. -/
theorem easing_matches_spec (st : TransitionState) (now : ℚ)
    (sv tv : MotionDetectionOptions)
    (hs : st.startValues = some sv) (ht : st.targetValues = some tv) :
    (∀ t : ℚ, easeInOut t = specEase t) ∧
    ∀ o ∈ (animate st now).2, ∀ f : ContField,
      contGet f o =
        lerp (contGet f sv) (contGet f tv)
          (easeInOut (min ((now - st.transitionStartTime) / st.transitionDuration) 1)) := by
  constructor
  · intro t
    unfold easeInOut specEase
    split <;> ring
  · intro o ho f
    cases hT : st.isTransitioning with
    | false => rw [animate_idle st now hT] at ho; simp at ho
    | true =>
      rw [animate_eq st now sv tv hT hs ht] at ho
      split at ho <;>
        simp only [List.mem_cons, List.not_mem_nil, or_false] at ho
      · subst ho
        exact contGet_interpolate f sv tv _
      · rename_i hlt
        have hraw : min ((now - st.transitionStartTime) / st.transitionDuration) 1 = 1 := by
          rcases lt_or_eq_of_le (min_le_right
            ((now - st.transitionStartTime) / st.transitionDuration) 1) with h | h
          · exact absurd h hlt
          · exact h
        rcases ho with ho | ho
        · subst ho
          exact contGet_interpolate f sv tv _
        · subst ho
          rw [hraw]
          have : easeInOut 1 = 1 := by norm_num [easeInOut]
          rw [this, lerp_one]

/-- C4 counterexample: the draw 360/361 lies in [0,1) yet the newly chosen
target angle is 360, which is not in [0,360). -/
theorem driftTarget_counterexample :
    (0 ≤ (360/361 : ℚ) ∧ (360/361 : ℚ) < 1) ∧
    newTargetAngle (360/361) = 360 ∧ ¬ newTargetAngle (360/361) < 360 := by
  have h : (360/361 : ℚ) * 361 = 360 := by norm_num
  unfold newTargetAngle
  rw [h]
  norm_num

/-- C4 amended: for every draw in [0,1) the new target angle lies in the
closed interval [0,360], and therefore (the previous target lying in
[0,360] as well) every angle the generator pushes during the linear
animation lies in [0,360]. -/
theorem driftAngle_in_closed_range (r fromAngle elapsed duration : ℚ)
    (hr0 : 0 ≤ r) (hr1 : r < 1)
    (hf0 : 0 ≤ fromAngle) (hf1 : fromAngle ≤ 360)
    (he : 0 ≤ elapsed) (hd : 0 < duration) :
    (0 ≤ newTargetAngle r ∧ newTargetAngle r ≤ 360) ∧
    (0 ≤ angleStep fromAngle (newTargetAngle r) elapsed duration ∧
      angleStep fromAngle (newTargetAngle r) elapsed duration ≤ 360) := by
  have htgt : 0 ≤ newTargetAngle r ∧ newTargetAngle r ≤ 360 := by
    unfold newTargetAngle
    constructor
    · have h0 : (0 : ℤ) ≤ ⌊r * 361⌋ := by
        rw [Int.le_floor]
        push_cast
        nlinarith
      exact_mod_cast h0
    · have h1 : ⌊r * 361⌋ < (361 : ℤ) := by
        rw [Int.floor_lt]
        push_cast
        nlinarith
      have h2 : ⌊r * 361⌋ ≤ (360 : ℤ) := by omega
      exact_mod_cast h2
  refine ⟨htgt, ?_⟩
  have ht0 : 0 ≤ min (elapsed / duration) 1 :=
    le_min (div_nonneg he (le_of_lt hd)) zero_le_one
  have ht1 : min (elapsed / duration) 1 ≤ 1 := min_le_right _ _
  have hstep := lerp_mem fromAngle (newTargetAngle r) (min (elapsed / duration) 1)
    ht0 ht1
  have heq : angleStep fromAngle (newTargetAngle r) elapsed duration =
      lerp fromAngle (newTargetAngle r) (min (elapsed / duration) 1) := rfl
  rw [heq]
  constructor
  · exact le_trans (le_min hf0 htgt.1) hstep.1
  · exact le_trans hstep.2 (max_le hf1 htgt.2)

/-- C4 amended witness: draw 1/2, animating from angle 280 at 1000 of
2000 ms. -/
theorem driftAngle_in_closed_range_witness :
    (0 ≤ newTargetAngle (1/2) ∧ newTargetAngle (1/2) ≤ 360) ∧
    (0 ≤ angleStep 280 (newTargetAngle (1/2)) 1000 2000 ∧
      angleStep 280 (newTargetAngle (1/2)) 1000 2000 ≤ 360) :=
  driftAngle_in_closed_range (1/2) 280 1000 2000 (by norm_num) (by norm_num)
    (by norm_num) (by norm_num) (by norm_num) (by norm_num)

/-- C10 counterexample: on a tick whose measured compute time is 0 ms the
scheduled delay is `max(0, 50 - 16) = 34`, not `max(0, 50 - 0) = 50` as the
claim's formula demands. -/
theorem frameDelay_counterexample :
    nextFrameDelay 0 = 34 ∧ max (0:ℚ) (1000/20 - 0) = 50 ∧ (34:ℚ) ≠ 50 := by
  refine ⟨?_, by norm_num, by norm_num⟩
  unfold nextFrameDelay
  norm_num

/-- C10 amended: for every tick whose measured compute time is non-zero the
scheduled delay equals `max(0, 50 - computeTime)`; a falsy (zero) measured
time is replaced by the 16 ms default, giving delay 34; the delay is
exactly 0 whenever the compute time is at least 50 ms, and never
negative. -/
theorem frameDelay_formula (computeTime : ℚ) (h : computeTime ≠ 0) :
    nextFrameDelay computeTime = max 0 (1000 / 20 - computeTime) ∧
    (50 ≤ computeTime → nextFrameDelay computeTime = 0) ∧
    0 ≤ nextFrameDelay computeTime ∧
    nextFrameDelay 0 = 34 := by
  have hmain : nextFrameDelay computeTime = max 0 (1000 / 20 - computeTime) := by
    unfold nextFrameDelay
    simp [h]
  refine ⟨hmain, ?_, ?_, ?_⟩
  · intro h50
    rw [hmain, max_eq_left (by linarith)]
  · rw [hmain]
    exact le_max_left _ _
  · unfold nextFrameDelay
    norm_num

/-- C10 amended witness: a 60 ms tick gets delay 0. -/
theorem frameDelay_formula_witness :
    nextFrameDelay 60 = max 0 (1000 / 20 - 60) ∧
    (50 ≤ (60:ℚ) → nextFrameDelay 60 = 0) ∧
    0 ≤ nextFrameDelay 60 ∧
    nextFrameDelay 0 = 34 :=
  frameDelay_formula 60 (by norm_num)

/-- C7: with cycling off, a current preset, and `lastAppliedOptions` whose
decay rate is 0.80, a live set differing only in `motionDecayRate` leaves
`hasUnsavedChanges` false at 0.805 (within the 0.01 tolerance) and flips it
true at 0.90; a deviation in `movementAngle` alone never sets the flag. -/
theorem unsavedChanges_tolerance (st : PresetManagerState) (id : String)
    (lastApplied : MotionDetectionOptions)
    (hplay : st.isPlaying = false)
    (hcid : st.currentPresetId = some id)
    (hlast : st.lastAppliedOptions = some lastApplied)
    (hdecay : lastApplied.motionDecayRate = 4/5) :
    (checkForUnsavedChanges st
      { lastApplied with motionDecayRate := 805/1000 }).hasUnsavedChanges = false ∧
    (checkForUnsavedChanges st
      { lastApplied with motionDecayRate := 9/10 }).hasUnsavedChanges = true ∧
    ∀ a : ℚ, (checkForUnsavedChanges st
      { lastApplied with movementAngle := a }).hasUnsavedChanges = false := by
  refine ⟨?_, ?_, fun a => ?_⟩ <;>
    simp only [checkForUnsavedChanges, hplay, hcid, hlast, Bool.false_eq_true,
      if_false, ite_false] <;>
    simp [allKeys, isSignificantlyDifferent, contOf, contGet, toleranceFor,
      hdecay, abs_le]
  · norm_num
  · refine Or.inl ?_
    rw [show (9/10 - 4/5 : ℚ) = 1/10 by norm_num,
      abs_of_pos (by norm_num : (0:ℚ) < 1/10)]
    norm_num

/-- C7 witness: the sample manager state (not playing, preset `pa` current,
`sampleA` recorded with decay rate 0.80). -/
theorem unsavedChanges_tolerance_witness :
    (checkForUnsavedChanges sampleManager.state
      { sampleA with motionDecayRate := 805/1000 }).hasUnsavedChanges = false ∧
    (checkForUnsavedChanges sampleManager.state
      { sampleA with motionDecayRate := 9/10 }).hasUnsavedChanges = true ∧
    ∀ a : ℚ, (checkForUnsavedChanges sampleManager.state
      { sampleA with movementAngle := a }).hasUnsavedChanges = false :=
  unsavedChanges_tolerance sampleManager.state "pa" sampleA rfl rfl rfl rfl

theorem availablePool_subset (m : Manager) (q : Preset)
    (hq : q ∈ availablePool m) : q ∈ m.presets := by
  unfold availablePool at hq
  cases h : m.state.currentPresetId with
  | none => simp only [h] at hq; exact hq
  | some cid =>
    simp only [h] at hq
    exact (List.mem_filter.mp hq).1

theorem availablePool_ne_current (m : Manager) (cid : String) (q : Preset)
    (hcid : m.state.currentPresetId = some cid) (hq : q ∈ availablePool m) :
    q.id ≠ cid := by
  unfold availablePool at hq
  simp only [hcid] at hq
  simpa using (List.mem_filter.mp hq).2

theorem availablePool_length_pos (m : Manager) (a b : Preset)
    (rest : List Preset)
    (hps : m.presets = a :: b :: rest)
    (hnd : (m.presets.map Preset.id).Nodup) :
    0 < (availablePool m).length := by
  unfold availablePool
  cases h : m.state.currentPresetId with
  | none => simp only [h]; simp [hps]
  | some cid =>
    simp only [h]
    have hab : a.id ≠ b.id := by
      rw [hps] at hnd
      simp only [List.map_cons, List.nodup_cons, List.mem_cons, not_or] at hnd
      exact hnd.1.1
    rcases ne_or_eq a.id cid with ha | ha
    · have hmem : a ∈ m.presets.filter (fun p => p.id ≠ cid) := by
        rw [hps]
        exact List.mem_filter.mpr ⟨List.mem_cons_self _ _, by simpa using ha⟩
      exact List.length_pos.mpr (List.ne_nil_of_mem hmem)
    · have hb : b.id ≠ cid := fun hbc => hab (by rw [ha, hbc])
      have hmem : b ∈ m.presets.filter (fun p => p.id ≠ cid) := by
        rw [hps]
        exact List.mem_filter.mpr ⟨by simp, by simpa using hb⟩
      exact List.length_pos.mpr (List.ne_nil_of_mem hmem)

theorem randomIndexOf_lt (r : ℚ) (len : ℕ) (h0 : 0 ≤ r) (h1 : r < 1)
    (hl : 0 < len) : randomIndexOf r len < len := by
  unfold randomIndexOf
  have hlq : (0:ℚ) < (len : ℚ) := by exact_mod_cast hl
  have hx : r * (len:ℚ) < (len:ℚ) := by nlinarith
  have hfl : ⌊r * (len:ℚ)⌋ < (len : ℤ) := by
    rw [Int.floor_lt]
    exact_mod_cast hx
  omega

theorem cycle_cons_cons (m : Manager) (r now : ℚ) (a b : Preset)
    (rest : List Preset)
    (hps : m.presets = a :: b :: rest)
    (hnd : (m.presets.map Preset.id).Nodup)
    (hr0 : 0 ≤ r) (hr1 : r < 1) :
    randomIndexOf r (availablePool m).length < (availablePool m).length ∧
    ∃ p ∈ availablePool m,
      (cycleToNextPreset m r now).state.currentPresetId = some p.id ∧
      (cycleToNextPreset m r now).state.isPlaying = m.state.isPlaying ∧
      (cycleToNextPreset m r now).state.hasUnsavedChanges = false := by
  have hpos := availablePool_length_pos m a b rest hps hnd
  have hidx := randomIndexOf_lt r (availablePool m).length hr0 hr1 hpos
  refine ⟨hidx, ?_⟩
  obtain ⟨p, hp⟩ :
      ∃ p, (availablePool m)[randomIndexOf r (availablePool m).length]? = some p := by
    rw [List.getElem?_eq_getElem hidx]
    exact ⟨_, rfl⟩
  have hpmem : p ∈ availablePool m := List.getElem?_mem hp
  obtain ⟨q, hq⟩ :
      ∃ q, m.presets.find? (fun x => x.id == p.id) = some q := by
    refine Option.isSome_iff_exists.mp ?_
    rw [List.find?_isSome]
    exact ⟨p, availablePool_subset m p hpmem, by simp⟩
  refine ⟨p, hpmem, ?_⟩
  unfold cycleToNextPreset
  rw [hps]
  simp only [hp]
  simp [applyPreset, hq]

theorem cycle_single (m : Manager) (r now : ℚ) (x : Preset)
    (hps : m.presets = [x]) :
    (cycleToNextPreset m r now).state.currentPresetId = some x.id ∧
    (cycleToNextPreset m r now).state.isPlaying = m.state.isPlaying ∧
    (cycleToNextPreset m r now).state.hasUnsavedChanges = false := by
  have hfind : m.presets.find? (fun q => q.id == x.id) = some x := by
    rw [hps]
    simp [List.find?]
  unfold cycleToNextPreset
  rw [hps]
  simp [applyPreset, hfind]

/-- C6: with at least two presets, a current preset among them and
pairwise-distinct ids, `cycleToNextPreset` draws from a pool that excludes
the current preset, the drawn index is within the pool's bounds, and the
preset it applies has an id different from the current one — for every
draw in [0,1). -/
theorem cycle_avoids_current (m : Manager) (r now : ℚ) (cid : String)
    (hlen : 2 ≤ m.presets.length)
    (hcid : m.state.currentPresetId = some cid)
    (hmem : cid ∈ m.presets.map Preset.id)
    (hnd : (m.presets.map Preset.id).Nodup)
    (hr0 : 0 ≤ r) (hr1 : r < 1) :
    (∀ q ∈ availablePool m, q.id ≠ cid) ∧
    randomIndexOf r (availablePool m).length < (availablePool m).length ∧
    ∃ p ∈ m.presets, p.id ≠ cid ∧
      (cycleToNextPreset m r now).state.currentPresetId = some p.id := by
  obtain ⟨a, b, rest, hps⟩ : ∃ a b rest, m.presets = a :: b :: rest := by
    have h1 : m.presets ≠ [] := by
      intro h
      rw [h] at hlen
      simp at hlen
    obtain ⟨a, t, hp⟩ := List.exists_cons_of_ne_nil h1
    have h2 : t ≠ [] := by
      intro h
      rw [h] at hp
      rw [hp] at hlen
      simp at hlen
    obtain ⟨b, rest, ht⟩ := List.exists_cons_of_ne_nil h2
    exact ⟨a, b, rest, by rw [hp, ht]⟩
  have hmain := cycle_cons_cons m r now a b rest hps hnd hr0 hr1
  obtain ⟨p, hpmem, hcur, _, _⟩ := hmain.2
  exact ⟨fun q hq => availablePool_ne_current m cid q hcid hq, hmain.1,
    p, availablePool_subset m p hpmem,
    availablePool_ne_current m cid p hcid hpmem, hcur⟩

/-- C6 witness: the sample manager (two presets, `pa` current, draw 1/2). -/
theorem cycle_avoids_current_witness :
    (∀ q ∈ availablePool sampleManager, q.id ≠ "pa") ∧
    randomIndexOf (1/2) (availablePool sampleManager).length <
      (availablePool sampleManager).length ∧
    ∃ p ∈ sampleManager.presets, p.id ≠ "pa" ∧
      (cycleToNextPreset sampleManager (1/2) 7).state.currentPresetId =
        some p.id :=
  cycle_avoids_current sampleManager (1/2) 7 "pa" (by decide) rfl (by decide)
    (by decide) (by norm_num) (by norm_num)

/-- C9 counterexample: on a manager whose preset collection is empty,
`startCycling` returns without applying anything and `isPlaying` stays
false — the state machine does not move to Cycling. -/
theorem startCycling_empty_counterexample :
    (startCycling emptyManager (1/2) 0).state.isPlaying = false ∧
    startCycling emptyManager (1/2) 0 = emptyManager := by
  constructor <;> rfl

/-- C9 amended: for every manager whose preset collection is non-empty
(with pairwise-distinct ids), `startCycling` sets `isPlaying` to true,
clears the unsaved flag, and immediately applies one of the presets (no
initial wait); with an empty collection it returns without changing
state. -/
theorem startCycling_nonempty (m : Manager) (r now : ℚ)
    (hne : m.presets ≠ [])
    (hnd : (m.presets.map Preset.id).Nodup)
    (hr0 : 0 ≤ r) (hr1 : r < 1) :
    ((startCycling m r now).state.isPlaying = true ∧
      (startCycling m r now).state.hasUnsavedChanges = false ∧
      ∃ p ∈ m.presets,
        (startCycling m r now).state.currentPresetId = some p.id) ∧
    ∀ m0 : Manager, m0.presets = [] → startCycling m0 r now = m0 := by
  constructor
  · have hlen0 : ¬ m.presets.length = 0 := by
      simpa [List.length_eq_zero] using hne
    have hsc : startCycling m r now =
        cycleToNextPreset
          { m with state :=
              { m.state with
                isPlaying := true
                lastCycleTime := 0
                hasUnsavedChanges := false } } r now := by
      unfold startCycling
      rw [if_neg hlen0]
    set m1 : Manager :=
      { m with state :=
          { m.state with
            isPlaying := true
            lastCycleTime := 0
            hasUnsavedChanges := false } } with hm1
    have hm1p : m1.presets = m.presets := rfl
    have hm1play : m1.state.isPlaying = true := rfl
    obtain ⟨a, t, hp⟩ := List.exists_cons_of_ne_nil hne
    by_cases ht : t = []
    · have hsingle := cycle_single m1 r now a (by rw [hm1p, hp, ht])
      refine ⟨?_, ?_, a, ?_, ?_⟩
      · rw [hsc, hsingle.2.1]
      · rw [hsc]
        exact hsingle.2.2
      · rw [hp]
        exact List.mem_cons_self _ _
      · rw [hsc]
        exact hsingle.1
    · obtain ⟨b, rest, ht2⟩ := List.exists_cons_of_ne_nil ht
      have hcc := cycle_cons_cons m1 r now a b rest
        (by rw [hm1p, hp, ht2]) (by rw [hm1p]; exact hnd) hr0 hr1
      obtain ⟨p, hpmem, hcur, hplay, huns⟩ := hcc.2
      refine ⟨?_, ?_, p, ?_, ?_⟩
      · rw [hsc, hplay]
      · rw [hsc]
        exact huns
      · rw [← hm1p]
        exact availablePool_subset m1 p hpmem
      · rw [hsc]
        exact hcur
  · intro m0 hm0
    unfold startCycling
    rw [if_pos (by rw [hm0]; rfl)]

/-- C9 amended witness: the sample manager with draw 1/2. -/
theorem startCycling_nonempty_witness :
    ((startCycling sampleManager (1/2) 9).state.isPlaying = true ∧
      (startCycling sampleManager (1/2) 9).state.hasUnsavedChanges = false ∧
      ∃ p ∈ sampleManager.presets,
        (startCycling sampleManager (1/2) 9).state.currentPresetId =
          some p.id) ∧
    ∀ m0 : Manager, m0.presets = [] → startCycling m0 (1/2) 9 = m0 :=
  startCycling_nonempty sampleManager (1/2) 9 (by decide) (by decide)
    (by norm_num) (by norm_num)

theorem daysInYear_pos (y : ℕ) : 0 < daysInYear y := by
  unfold daysInYear
  split <;> omega

theorem epochDays_succ (y : ℕ) (hy : 1970 ≤ y) :
    epochDays (y + 1) = epochDays y + daysInYear y := by
  simp [epochDays, hy]

theorem yearSplit_spec (d : ℕ) : ∀ y : ℕ, 1970 ≤ y →
    1970 ≤ (yearSplit y d).1 ∧
    epochDays (yearSplit y d).1 + (yearSplit y d).2 = epochDays y + d ∧
    (yearSplit y d).2 < daysInYear (yearSplit y d).1 := by
  induction d using Nat.strong_induction_on with
  | _ d ih =>
    intro y hy
    rw [yearSplit]
    split
    · rename_i h
      have hpos := daysInYear_pos y
      have hrec := ih (d - daysInYear y) (by omega) (y + 1) (by omega)
      refine ⟨hrec.1, ?_, hrec.2.2⟩
      have h21 := hrec.2.1
      rw [epochDays_succ y hy] at h21
      omega
    · refine ⟨hy, rfl, ?_⟩
      show d < daysInYear y
      omega

theorem monthOffset_succ (y m : ℕ) :
    monthOffset y (m + 1) = monthOffset y m + daysInMonth y m := rfl

theorem monthOffset_thirteen (y : ℕ) : monthOffset y 13 = daysInYear y := by
  show 0 + 0 + 31 + (if isLeapYear y then 29 else 28) + 31 + 30 + 31 + 30 +
    31 + 31 + 30 + 31 + 30 + 31 = daysInYear y
  unfold daysInYear
  cases isLeapYear y <;> norm_num

theorem monthSplit_spec (y : ℕ) :
    ∀ (k m d : ℕ), 12 - m ≤ k → 1 ≤ m → m ≤ 12 →
    monthOffset y m + d < daysInYear y →
    (1 ≤ (monthSplit y m d).1 ∧ (monthSplit y m d).1 ≤ 12) ∧
    monthOffset y (monthSplit y m d).1 + (monthSplit y m d).2 =
      monthOffset y m + d ∧
    (monthSplit y m d).2 < daysInMonth y (monthSplit y m d).1 := by
  intro k
  induction k with
  | zero =>
    intro m d hk h1 h12 hb
    rw [monthSplit]
    split
    · rename_i h
      exact absurd h.1 (by omega)
    · refine ⟨⟨h1, h12⟩, rfl, ?_⟩
      have hm : m = 12 := by omega
      subst hm
      have h13 : monthOffset y 12 + daysInMonth y 12 = daysInYear y :=
        monthOffset_thirteen y
      show d < daysInMonth y 12
      omega
  | succ k ihk =>
    intro m d hk h1 h12 hb
    rw [monthSplit]
    split
    · rename_i h
      have hmo : monthOffset y (m + 1) = monthOffset y m + daysInMonth y m :=
        monthOffset_succ y m
      have hrec := ihk (m + 1) (d - daysInMonth y m) (by omega) (by omega)
        (by omega) (by omega)
      refine ⟨hrec.1, ?_, hrec.2.2⟩
      have h21 := hrec.2.1
      omega
    · rename_i h
      refine ⟨⟨h1, h12⟩, rfl, ?_⟩
      show d < daysInMonth y m
      by_cases hm : m < 12
      · omega
      · have hm12 : m = 12 := by omega
        subst hm12
        have h13 : monthOffset y 12 + daysInMonth y 12 = daysInYear y :=
          monthOffset_thirteen y
        omega

theorem ofISODate_toISODate (t : ℕ) : ofISODate (toISODate t) = t := by
  have h1970 : epochDays 1970 = 0 := rfl
  have hys := yearSplit_spec (t / 1000 / 60 / 60 / 24) 1970 (by norm_num)
  have hmo1 : monthOffset (yearSplit 1970 (t / 1000 / 60 / 60 / 24)).1 1 = 0 :=
    rfl
  have hms := monthSplit_spec (yearSplit 1970 (t / 1000 / 60 / 60 / 24)).1 12 1
    (yearSplit 1970 (t / 1000 / 60 / 60 / 24)).2 (by omega) (by omega)
    (by omega) (by rw [hmo1]; simpa using hys.2.2)
  simp only [toISODate, ofISODate]
  have h2 := hys.2.1
  have h3 := hms.2.1
  rw [hmo1] at h3
  rw [h1970] at h2
  omega

theorem load_save (presets : List Preset) :
    PresetStorage.load (PresetStorage.save presets) = presets := by
  induction presets with
  | nil => rfl
  | cons p ps ih =>
    simp only [PresetStorage.save, PresetStorage.load, List.map_cons] at ih ⊢
    rw [ofISODate_toISODate, ofISODate_toISODate, ih]

/-- C8: loading the persisted form produced by `PresetStorage.save` returns
the collection unchanged field-by-field, the two timestamps revived exactly
(to the millisecond); hence serializing the loaded collection again yields
the same persisted form. -/
theorem storage_roundTrip (presets : List Preset) :
    PresetStorage.load (PresetStorage.save presets) = presets ∧
    PresetStorage.save (PresetStorage.load (PresetStorage.save presets)) =
      PresetStorage.save presets :=
  ⟨load_save presets, by rw [load_save]⟩

/-- C5 witness: the sample transition sampled mid-flight. -/
theorem easing_matches_spec_witness :
    (∀ t : ℚ, easeInOut t = specEase t) ∧
    ∀ o ∈ (animate sampleTransition 1000).2, ∀ f : ContField,
      contGet f o =
        lerp (contGet f sampleA) (contGet f sampleB)
          (easeInOut (min ((1000 - sampleTransition.transitionStartTime) /
            sampleTransition.transitionDuration) 1)) :=
  easing_matches_spec sampleTransition 1000 sampleA sampleB rfl rfl

end VisualIda
